import Mathlib

/-
Verification of the irlcord command core: a shallow embedding of the
argument parser (utils/discord_helpers.py), the sqlite-backed record
operations (utils/db.py) and the command handlers for events and groups
(cogs/events.py, cogs/groups.py), together with theorems settling the
behavioural claims about them.

Modelling conventions:
  * Python strings are Lean String / List Char (all inputs of interest are
    ASCII, so the ASCII case conversions and character classes coincide
    with Python semantics on the inputs the handlers receive).
  * A Python dict of parsed arguments is an association list whose insert
    overwrites in place, mirroring dict assignment.
  * Database tables touched by the handlers are explicit lists of records
    in rowid (insertion) order; the sqlite upsert ON CONFLICT DO UPDATE
    keeps the existing row position, DELETE removes rows, INSERT appends.
  * A handler is a total function into an OpResult: "failure k" models an
    early return with a user-facing message (k names the failure class of
    the design taxonomy), "crash e" models an uncaught Python exception
    propagating out of the handler, "success v" the committed new state.
  * The wall clock (datetime.datetime.now()) is an explicit parameter.
-/

namespace Irlcord

/-- Character class of the regex word class backslash-w, ASCII fragment:
letters, digits and underscore. -/
def isWordChar (c : Char) : Bool :=
  c.isAlpha || c.isDigit || c == '_'

/-- Python str.split with no separator treats these as whitespace (ASCII
fragment). -/
def isPySpace (c : Char) : Bool :=
  c == ' ' || c == '\t' || c == '\n' || c == '\r' || c == '\x0b' || c == '\x0c'

/-- ASCII lower-casing of a character, as Python str.lower on ASCII. -/
def lowerChar (c : Char) : Char := c.toLower

/-- ASCII lower-casing of a string, as Python str.lower on ASCII. -/
def pyLower (s : String) : String := String.mk (s.toList.map lowerChar)

/-- Digits of a candidate integer literal with the underscore grouping rule
of CPython int(): nonempty, starts and ends with a digit, any underscore
sits between two digits. Returns the digit list with underscores removed,
or none. -/
def intDigitsCore : List Char → Option (List Char)
  | [] => none
  | [c] => if c.isDigit then some [c] else none
  | c :: d :: t =>
    if c.isDigit then
      match intDigitsCore (d :: t) with
      | some ds => some (c :: ds)
      | none => none
    else if c == '_' then
      if d.isDigit then intDigitsCore (d :: t) else none
    else none

/-- Underscore may not lead the literal: the first character must be a
digit. -/
def intDigits (l : List Char) : Option (List Char) :=
  match l with
  | [] => none
  | c :: _ => if c.isDigit then intDigitsCore l else none

/-- Numeric value of a digit list. -/
def digitsVal (l : List Char) : Nat :=
  l.foldl (fun acc c => acc * 10 + (c.toNat - '0'.toNat)) 0

/-- CPython int(str): strip surrounding whitespace, optional sign, then a
digit sequence (with underscore grouping). Returns none exactly when the
Python call raises ValueError. -/
def pyIntParse (s : String) : Option Int :=
  let l := (s.toList.dropWhile isPySpace).reverse.dropWhile isPySpace |>.reverse
  match l with
  | '+' :: t => (intDigits t).map (fun ds => (digitsVal ds : Int))
  | '-' :: t => (intDigits t).map (fun ds => -(digitsVal ds : Int))
  | t => (intDigits t).map (fun ds => (digitsVal ds : Int))

/-- re.findall(r"d+", s)[0] of events.py event_change_host: the first
maximal run of digits, none when the Python indexing raises IndexError. -/
def firstDigitRun : List Char → Option String
  | [] => none
  | c :: t =>
    if c.isDigit then some (String.mk (c :: t.takeWhile Char.isDigit))
    else firstDigitRun t

/-! ## Argument parser (utils/discord_helpers.py parse_command_args) -/

/-- One match of the quoted-pair pattern: captured key, captured value and
the whole matched text. -/
structure QMatch where
  key : List Char
  val : List Char
  whole : List Char
  deriving Repr, DecidableEq

/-- Attempt to match the quoted pattern key="value" at the head of the
text: a nonempty word-character run, then equals sign and opening quote,
then a quote-free value, then the closing quote. Returns the match and the
remaining text. Mirrors the regex with word-run greediness (a shorter run
would have to be followed by a word character, never the equals sign, so
the maximal run is the only candidate). -/
def quotedMatchHere (s : List Char) : Option (QMatch × List Char) :=
  let k := s.takeWhile isWordChar
  if k.isEmpty then none
  else
    match s.drop k.length with
    | '=' :: '\"' :: r2 =>
      let v := r2.takeWhile (fun c => c != '\"')
      match r2.drop v.length with
      | '\"' :: rest => some (⟨k, v, k ++ '=' :: '\"' :: (v ++ ['\"'])⟩, rest)
      | _ => none
    | _ => none

/-- re.finditer of the quoted pattern: scan left to right, restart after
each match, advance one character on failure. Fuelled structurally; fuel
equal to the text length is always sufficient since every step consumes at
least one character. -/
def quotedScan : Nat → List Char → List QMatch
  | 0, _ => []
  | _ + 1, [] => []
  | fuel + 1, s =>
    match quotedMatchHere s with
    | some (m, rest) => m :: quotedScan fuel rest
    | none => quotedScan fuel (s.drop 1)

/-- Attempt to match the unquoted pattern key=value at the head of the
text: a nonempty word run, equals sign, then a nonempty run of
non-whitespace characters. -/
def unquotedMatchHere (s : List Char) : Option ((List Char × List Char) × List Char) :=
  let k := s.takeWhile isWordChar
  if k.isEmpty then none
  else
    match s.drop k.length with
    | '=' :: r2 =>
      let v := r2.takeWhile (fun c => !isPySpace c)
      if v.isEmpty then none else some ((k, v), r2.drop v.length)
    | _ => none

/-- re.finditer of the unquoted pattern, fuelled like quotedScan. -/
def unquotedScan : Nat → List Char → List (List Char × List Char)
  | 0, _ => []
  | _ + 1, [] => []
  | fuel + 1, s =>
    match unquotedMatchHere s with
    | some (kv, rest) => kv :: unquotedScan fuel rest
    | none => unquotedScan fuel (s.drop 1)

/-- Python str.replace(pat, ""): delete every non-overlapping occurrence
of pat, left to right. Fuelled; fuel equal to the text length suffices for
the nonempty patterns this file uses. -/
def removeAllF : Nat → List Char → List Char → List Char
  | 0, t, _ => t
  | _ + 1, [], _ => []
  | fuel + 1, c :: t, pat =>
    if pat ≠ [] ∧ pat.isPrefixOf (c :: t) then
      removeAllF fuel ((c :: t).drop pat.length) pat
    else c :: removeAllF fuel t pat

/-- Delete every occurrence of pat from t. -/
def removeAll (t pat : List Char) : List Char := removeAllF t.length t pat

/-- Python content.split(maxsplit=1): the remainder after the first
whitespace-delimited token, or none when fewer than two parts exist. -/
def splitRemainder (s : List Char) : Option (List Char) :=
  let s1 := s.dropWhile isPySpace
  if s1.isEmpty then none
  else
    let s2 := (s1.dropWhile (fun c => !isPySpace c)).dropWhile isPySpace
    if s2.isEmpty then none else some s2

/-- Argument text of a message: everything after the first token. -/
def argsTextOf (content : String) : Option (List Char) :=
  splitRemainder content.toList

/-- Python dict assignment on an association list: overwrite in place when
the key is present, append otherwise. -/
def dictInsert (m : List (String × String)) (k v : String) : List (String × String) :=
  if m.any (fun p => p.1 == k) then
    m.map (fun p => if p.1 == k then (p.1, v) else p)
  else m ++ [(k, v)]

/-- Key/value pairs produced by the quoted pass, keys lower-cased, in
match order. -/
def quotedPairs (content : String) : List (String × String) :=
  match argsTextOf content with
  | none => []
  | some t => (quotedScan t.length t).map
      (fun m => (pyLower (String.mk m.key), String.mk m.val))

/-- The working text after the quoted pass has removed every matched
span (finditer runs over the original text; the replacements accumulate on
the working copy). -/
def residualText (content : String) : List Char :=
  match argsTextOf content with
  | none => []
  | some t => (quotedScan t.length t).foldl (fun acc m => removeAll acc m.whole) t

/-- Key/value pairs produced by the unquoted pass over the residual text,
keys lower-cased, in match order. -/
def unquotedPairs (content : String) : List (String × String) :=
  let r := residualText content
  (unquotedScan r.length r).map
    (fun p => (pyLower (String.mk p.1), String.mk p.2))

/-- parse_command_args of utils/discord_helpers.py: drop the first token,
record quoted pairs, remove their spans, then record unquoted pairs; later
insertions overwrite earlier ones as in a Python dict. -/
def parse_command_args (content : String) : List (String × String) :=
  match argsTextOf content with
  | none => []
  | some _ =>
    (quotedPairs content ++ unquotedPairs content).foldl
      (fun m p => dictInsert m p.1 p.2) []

/-! ## Dates and times (datetime.datetime fragment) -/

/-- A Python datetime value. Values parsed by the handlers always carry
zero second and microsecond; the wall clock may carry any. -/
structure DT where
  year : Nat
  month : Nat
  day : Nat
  hour : Nat
  minute : Nat
  second : Nat
  usec : Nat
  deriving Repr, DecidableEq

/-- Chronological strict order of datetime values: lexicographic on the
components, as Python datetime comparison. -/
def dtLt (a b : DT) : Bool :=
  if a.year ≠ b.year then a.year < b.year
  else if a.month ≠ b.month then a.month < b.month
  else if a.day ≠ b.day then a.day < b.day
  else if a.hour ≠ b.hour then a.hour < b.hour
  else if a.minute ≠ b.minute then a.minute < b.minute
  else if a.second ≠ b.second then a.second < b.second
  else a.usec < b.usec

/-- Gregorian leap year rule used by datetime. -/
def isLeapYear (y : Nat) : Bool :=
  y % 4 == 0 && (y % 100 != 0 || y % 400 == 0)

/-- Days in a month, with the leap rule for February. -/
def daysInMonth (y m : Nat) : Nat :=
  if m == 2 then (if isLeapYear y then 29 else 28)
  else if m == 4 || m == 6 || m == 9 || m == 11 then 30
  else 31

/-- A run of one or two digits at the head of the text, returned with the
remainder; none when the run is empty or longer than two digits (the
strptime field patterns for month, day, hour and minute admit at most two
digits and a following digit would have to extend the match). -/
def take12Digits (l : List Char) : Option (Nat × List Char) :=
  let ds := l.takeWhile Char.isDigit
  if ds.length == 1 || ds.length == 2 then some (digitsVal ds, l.drop ds.length)
  else none

/-- strptime "%Y-%m-%d" on the given text followed by the given suffix
expectation: exactly four digits of year, dash, month in 1..12, dash, day
in 1..31, validated against the calendar (datetime construction). Returns
the date and the remaining text. -/
def parseYMD (l : List Char) : Option ((Nat × Nat × Nat) × List Char) :=
  match l with
  | y1 :: y2 :: y3 :: y4 :: '-' :: r1 =>
    if y1.isDigit && y2.isDigit && y3.isDigit && y4.isDigit then
      let y := digitsVal [y1, y2, y3, y4]
      match take12Digits r1 with
      | some (m, r2) =>
        match r2 with
        | '-' :: r3 =>
          match take12Digits r3 with
          | some (d, r4) =>
            if 1 ≤ y && 1 ≤ m && m ≤ 12 && 1 ≤ d && d ≤ daysInMonth y m then
              some ((y, m, d), r4)
            else none
          | none => none
        | _ => none
      | none => none
    else none
  | _ => none

/-- strptime "%H:%M" on the given text: hour in 0..23, colon, minute in
0..59. Returns the time and the remaining text. -/
def parseHM (l : List Char) : Option ((Nat × Nat) × List Char) :=
  match take12Digits l with
  | some (h, r1) =>
    if h ≤ 23 then
      match r1 with
      | ':' :: r2 =>
        match take12Digits r2 with
        | some (mi, r3) => if mi ≤ 59 then some ((h, mi), r3) else none
        | none => none
      | _ => none
    else none
  | none => none

/-- strptime(date, "%Y-%m-%d") as used by event_modify: the whole text
must be consumed. -/
def parseDateOnly (s : String) : Option (Nat × Nat × Nat) :=
  match parseYMD s.toList with
  | some (ymd, []) => some ymd
  | _ => none

/-- strptime(time, "%H:%M") as used by event_modify: the whole text must
be consumed. -/
def parseTimeOnly (s : String) : Option (Nat × Nat) :=
  match parseHM s.toList with
  | some (hm, []) => some hm
  | _ => none

/-- strptime(date ++ " " ++ time, "%Y-%m-%d %H:%M") as used by
event_create: date part, at least one whitespace character (the literal
space of the format matches a whitespace run), time part, end of text. -/
def parseDateTime (dateStr timeStr : String) : Option DT :=
  let l := dateStr.toList ++ ' ' :: timeStr.toList
  match parseYMD l with
  | some ((y, m, d), r1) =>
    let r2 := r1.dropWhile isPySpace
    if r1.length == r2.length then none
    else
      match parseHM r2 with
      | some ((h, mi), []) => some ⟨y, m, d, h, mi, 0, 0⟩
      | _ => none
  | none => none

/-- datetime.replace(year, month, day) of event_modify: merge a new date
onto an existing datetime, preserving the time components. -/
def mergeDate (dt : DT) (y m d : Nat) : DT :=
  { dt with year := y, month := m, day := d }

/-- datetime.replace(hour, minute) of event_modify: merge a new time onto
an existing datetime, preserving the date, second and microsecond
components. -/
def mergeTime (dt : DT) (h mi : Nat) : DT :=
  { dt with hour := h, minute := mi }

/-! ## Records and repository operations (utils/db.py) -/

/-- One EventAttendees row: user and RSVP status string (the source keeps
statuses as the strings ATTENDING, WAITLIST, DECLINED). -/
structure AttRec where
  user_id : String
  rsvp_status : String
  deriving Repr, DecidableEq

/-- One GroupMembers row. -/
structure Member where
  user_id : String
  is_leader : Bool
  deriving Repr, DecidableEq

/-- The Groups columns the event and group handlers read. -/
structure GroupRec where
  name : String
  description : String
  is_open : Bool
  new_members_can_create_events : Bool
  event_approval_mode : String
  event_attendee_management_mode : String
  contributor_events_required : Option Int
  deriving Repr, DecidableEq

/-- The Events columns the handlers read and write. -/
structure EventRec where
  host_id : String
  name : String
  date_time : DT
  location_name : String
  location_address : String
  description : String
  max_attendees : Option Int
  is_public : Bool
  status : String
  deriving Repr, DecidableEq

/-- Database.add_event_attendee: INSERT with ON CONFLICT(event_id,
user_id) DO UPDATE SET rsvp_status. The upsert keeps an existing row in
place and updates its status; otherwise the new row is appended. -/
def add_event_attendee (atts : List AttRec) (uid st : String) : List AttRec :=
  if atts.any (fun a => a.user_id == uid) then
    atts.map (fun a => if a.user_id == uid then ⟨a.user_id, st⟩ else a)
  else atts ++ [⟨uid, st⟩]

/-- Database.remove_event_attendee: DELETE the rows of the given user. -/
def remove_event_attendee (atts : List AttRec) (uid : String) : List AttRec :=
  atts.filter (fun a => !(a.user_id == uid))

/-- Database.remove_group_member: DELETE the rows of the given user. -/
def remove_group_member (ms : List Member) (uid : String) : List Member :=
  ms.filter (fun m => !(m.user_id == uid))

/-- Status of a user in an attendee list: the first matching row, as a
sqlite point query would return it. -/
def statusOf (atts : List AttRec) (uid : String) : Option String :=
  (atts.find? (fun a => a.user_id == uid)).map (fun a => a.rsvp_status)

/-- The rows of one user in an attendee list. -/
def recordsFor (atts : List AttRec) (uid : String) : List AttRec :=
  atts.filter (fun a => a.user_id == uid)

/-- Count of rows with status ATTENDING. -/
def countAttending (atts : List AttRec) : Nat :=
  (atts.filter (fun a => a.rsvp_status == "ATTENDING")).length

/-- The rows with status WAITLIST, in retrieval order. -/
def waitlistOf (atts : List AttRec) : List AttRec :=
  atts.filter (fun a => a.rsvp_status == "WAITLIST")

/-- The leader rows of a member list (groups.py fetches GroupMembers WHERE
is_leader = 1). -/
def leadersOf (ms : List Member) : List Member :=
  ms.filter (fun m => m.is_leader)

/-- Database.is_group_member against an explicit member list. -/
def isMemberB (ms : List Member) (uid : String) : Bool :=
  ms.any (fun m => m.user_id == uid)

/-- Database.is_group_leader against an explicit member list. -/
def isLeaderB (ms : List Member) (uid : String) : Bool :=
  ms.any (fun m => m.user_id == uid && m.is_leader)

/-- The EventAttendees table has a unique index on (event_id, user_id), so
a well-formed attendee list mentions each user at most once. -/
def attendeesWF (atts : List AttRec) : Prop :=
  (atts.map (fun a => a.user_id)).Nodup

/-- GroupMembers has a unique (group_id, user_id) pair, so a well-formed
member list mentions each user at most once. -/
def membersWF (ms : List Member) : Prop :=
  (ms.map (fun m => m.user_id)).Nodup

instance (atts : List AttRec) : Decidable (attendeesWF atts) := by
  unfold attendeesWF; infer_instance

instance (ms : List Member) : Decidable (membersWF ms) := by
  unfold membersWF; infer_instance

/-! ## Handler results -/

/-- Outcome of one command handler: a typed early return with a
user-facing message, an uncaught Python exception escaping the handler, or
the successfully committed state. -/
inductive OpResult (α : Type) where
  | failure (kind : String)
  | crash (exc : String)
  | success (val : α)
  deriving Repr, DecidableEq

/-- Python args.get(k): the value bound to a key of the parsed dict. -/
def argGet (args : List (String × String)) (k : String) : Option String :=
  args.lookup k

/-- Python args.get(k, d): lookup with a default. -/
def argGetD (args : List (String × String)) (k d : String) : String :=
  (args.lookup k).getD d

/-- Python truthiness of args.get(k): present and not the empty string. -/
def getTruthy (args : List (String × String)) (k : String) : Option String :=
  match args.lookup k with
  | some v => if v == "" then none else some v
  | none => none

/-- The capacity guard of event_confirm, with Python truthiness: the test
is "if event[max_attendees] and len(attending) >= event[max_attendees]",
so None and 0 both disable the cap. -/
def maxFull : Option Int → Nat → Bool
  | none, _ => false
  | some m, count => if m == 0 then false else decide (m ≤ (count : Int))

/-! ## Command handlers (cogs/events.py, cogs/groups.py)

Each handler is modelled from the point where its entity lookups have
succeeded (the in-channel / in-thread preconditions), with the repository
rows it reads passed in explicitly and the repository writes reflected in
the returned state. External collaborator calls (thread creation, message
sending) are out of core scope and modelled as succeeding. -/

/-- Events.event_create. Failure kinds: Forbidden (permission guard),
MissingField (falsy name, date or time), InvalidDateTime (strptime
ValueError on the joint date-time, or a parsed instant earlier than the
wall clock). The bare int() on a truthy max argument sits outside the
try block, so a non-numeric value is an uncaught ValueError. On success
the created event and its attendee rows (the host auto-added as
ATTENDING) are returned. -/
def event_create (g : GroupRec) (isLeaderReq : Bool) (hostId : String)
    (args : List (String × String)) (now : DT) :
    OpResult (EventRec × List AttRec) :=
  if !g.new_members_can_create_events && !isLeaderReq then .failure "Forbidden"
  else
    match getTruthy args "name" with
    | none => .failure "MissingField"
    | some nm =>
      match getTruthy args "date", getTruthy args "time" with
      | some dateStr, some timeStr =>
        match parseDateTime dateStr timeStr with
        | none => .failure "InvalidDateTime"
        | some dt =>
          if dtLt dt now then .failure "InvalidDateTime"
          else
            let mkEv : Option Int → OpResult (EventRec × List AttRec) := fun mx =>
              .success
                ({ host_id := hostId
                   name := nm
                   date_time := dt
                   location_name := argGetD args "location" ""
                   location_address := argGetD args "address" ""
                   description := argGetD args "description" ""
                   max_attendees := mx
                   is_public := pyLower (argGetD args "public" "true") == "true"
                   status :=
                     if g.event_approval_mode != "none" then "pending"
                     else "approved" },
                 [⟨hostId, "ATTENDING"⟩])
            match getTruthy args "max" with
            | some maxStr =>
              match pyIntParse maxStr with
              | none => .crash "ValueError"
              | some mx => mkEv (some mx)
            | none => mkEv none
      | _, _ => .failure "MissingField"

/-- Events.event_modify. The four text fields are copied unconditionally
when present; a present max argument is parsed next (InvalidNumber on
failure, before any write is issued); when a date or time argument is
present the new instant is obtained by merging the supplied components
onto the existing date-time and the past-instant check runs against the
merged value. An empty argument dict and a dict with no recognized key
fail without writing. -/
def event_modify (ev : EventRec) (isHostReq isLeaderReq : Bool)
    (args : List (String × String)) (now : DT) : OpResult EventRec :=
  if !isHostReq && !isLeaderReq then .failure "Forbidden"
  else if args.isEmpty then .failure "NoSettings"
  else
    let assemble : Option Int → Option DT → OpResult EventRec := fun mxU dtU =>
      if (argGet args "name").isSome || (argGet args "description").isSome
          || (argGet args "location").isSome || (argGet args "address").isSome
          || mxU.isSome || dtU.isSome then
        .success
          { ev with
            name := argGetD args "name" ev.name
            description := argGetD args "description" ev.description
            location_name := argGetD args "location" ev.location_name
            location_address := argGetD args "address" ev.location_address
            max_attendees :=
              match mxU with
              | some mx => some mx
              | none => ev.max_attendees
            date_time :=
              match dtU with
              | some dt => dt
              | none => ev.date_time }
      else .failure "NoValidSettings"
    let dtPhase : Option Int → OpResult EventRec := fun mxU =>
      if (argGet args "date").isSome || (argGet args "time").isSome then
        let afterTime : DT → OpResult EventRec := fun cur =>
          match argGet args "time" with
          | some ts =>
            match parseTimeOnly ts with
            | none => .failure "InvalidDateTime"
            | some (h, mi) =>
              let merged := mergeTime cur h mi
              if dtLt merged now then .failure "InvalidDateTime"
              else assemble mxU (some merged)
          | none =>
            if dtLt cur now then .failure "InvalidDateTime"
            else assemble mxU (some cur)
        match argGet args "date" with
        | some ds =>
          match parseDateOnly ds with
          | none => .failure "InvalidDateTime"
          | some (y, m, d) => afterTime (mergeDate ev.date_time y m d)
        | none => afterTime ev.date_time
      else assemble mxU none
    match argGet args "max" with
    | some mstr =>
      match pyIntParse mstr with
      | none => .failure "InvalidNumber"
      | some mx => dtPhase (some mx)
    | none => dtPhase none

/-- The instant the date/time block of event_modify validates: the
supplied components, parsed by the same strptime calls, merged in the
same order (date first, then time) onto the stored date-time; none when
no date or time argument is present or a present one fails to parse. -/
def modifyMerged (ev : EventRec) (args : List (String × String)) : Option DT :=
  match argGet args "date", argGet args "time" with
  | none, none => none
  | some ds, none =>
    (parseDateOnly ds).map (fun ymd => mergeDate ev.date_time ymd.1 ymd.2.1 ymd.2.2)
  | none, some ts =>
    (parseTimeOnly ts).map (fun hm => mergeTime ev.date_time hm.1 hm.2)
  | some ds, some ts =>
    match parseDateOnly ds with
    | none => none
    | some (y, m, d) =>
      (parseTimeOnly ts).map (fun hm => mergeTime (mergeDate ev.date_time y m d) hm.1 hm.2)

/-- Events.event_confirm (Rsvp): requires an approved event and group
membership, counts the current ATTENDING rows, then upserts the requester
as WAITLIST when the truthy capacity is reached and as ATTENDING
otherwise. Returns the new attendee rows and the recorded status. -/
def event_confirm (ev : EventRec) (members : List Member)
    (atts : List AttRec) (uid : String) : OpResult (List AttRec × String) :=
  if ev.status != "approved" then .failure "NotApproved"
  else if !isMemberB members uid then .failure "NotGroupMember"
  else
    let attending := atts.filter (fun a => a.rsvp_status == "ATTENDING")
    if maxFull ev.max_attendees attending.length then
      .success (add_event_attendee atts uid "WAITLIST", "WAITLIST")
    else
      .success (add_event_attendee atts uid "ATTENDING", "ATTENDING")

/-- Events.event_unconfirm: no approval or membership validation occurs
(the event and member rows are accepted but never consulted). The
requester row is deleted, the post-deletion WAITLIST rows are fetched and
the first one, when present, is upserted to ATTENDING. Returns the new
attendee rows and the promoted user, if any. -/
def event_unconfirm (ev : EventRec) (members : List Member)
    (atts : List AttRec) (uid : String) :
    OpResult (List AttRec × Option String) :=
  let atts1 := remove_event_attendee atts uid
  match waitlistOf atts1 with
  | [] => .success (atts1, none)
  | w :: _ => .success (add_event_attendee atts1 w.user_id "ATTENDING", some w.user_id)

/-- Events.event_change_host: requires the requester to be the current
host or a leader; the new host id is the first digit run of the user
argument (an argument with no digit makes the [0] indexing an uncaught
IndexError); the new host must belong to the group. The single write is
UPDATE Events SET host_id, so the attendee rows pass through untouched. -/
def event_change_host (ev : EventRec) (isLeaderReq : Bool)
    (members : List Member) (requesterId : String)
    (args : List (String × String)) (atts : List AttRec) :
    OpResult (EventRec × List AttRec) :=
  if requesterId != ev.host_id && !isLeaderReq then .failure "Forbidden"
  else
    match getTruthy args "user" with
    | none => .failure "MissingField"
    | some userArg =>
      match firstDigitRun userArg.toList with
      | none => .crash "IndexError"
      | some newId =>
        if !isMemberB members newId then .failure "NotGroupMember"
        else .success ({ ev with host_id := newId }, atts)

/-- Groups.group_create: admin gate, truthy name, exact-name duplicate
check; the settings are taken from the arguments with their defaults and
no enum validation; a truthy contributor_events_required argument is fed
to a bare int() inside a try block that only catches the chat-platform
HTTP error, so a non-numeric value is an uncaught ValueError. On success
the new group and its member rows (the creator as leader) are returned. -/
def group_create (isAdminReq : Bool) (existingNames : List String)
    (creatorId : String) (args : List (String × String)) :
    OpResult (GroupRec × List Member) :=
  if !isAdminReq then .failure "PermissionDenied"
  else
    match getTruthy args "name" with
    | none => .failure "MissingField"
    | some nm =>
      if existingNames.contains nm then .failure "DuplicateName"
      else
        let base : GroupRec :=
          { name := nm
            description := argGetD args "description" ""
            is_open := pyLower (argGetD args "is_open" "true") == "true"
            new_members_can_create_events :=
              pyLower (argGetD args "new_members_can_create_events" "true") == "true"
            event_approval_mode := argGetD args "event_approval_mode" "public"
            event_attendee_management_mode :=
              argGetD args "event_attendee_management_mode" "host"
            contributor_events_required := none }
        match getTruthy args "contributor_events_required" with
        | none => .success (base, [⟨creatorId, true⟩])
        | some s =>
          match pyIntParse s with
          | none => .crash "ValueError"
          | some n =>
            .success ({ base with contributor_events_required := some n },
              [⟨creatorId, true⟩])

/-- Groups.group_leave: NotMember unless the requester has a member row;
LastLeader when the requester is a leader and the leader rows number
exactly one; otherwise the requester rows are deleted. -/
def group_leave (ms : List Member) (uid : String) : OpResult (List Member) :=
  if !isMemberB ms uid then .failure "NotMember"
  else if isLeaderB ms uid && (leadersOf ms).length == 1 then
    .failure "LastLeader"
  else .success (remove_group_member ms uid)

/-! ## Lemmas about the repository operations -/

theorem filter_cons_true {α : Type} (p : α → Bool) (a : α) (l : List α)
    (h : p a = true) : List.filter p (a :: l) = a :: List.filter p l := by
  simp [List.filter_cons, h]

theorem filter_cons_false {α : Type} (p : α → Bool) (a : α) (l : List α)
    (h : p a = false) : List.filter p (a :: l) = List.filter p l := by
  simp [List.filter_cons, h]

theorem find?_cons_true {α : Type} (p : α → Bool) (a : α) (l : List α)
    (h : p a = true) : List.find? p (a :: l) = some a := by
  simp [List.find?_cons, h]

theorem find?_cons_false {α : Type} (p : α → Bool) (a : α) (l : List α)
    (h : p a = false) : List.find? p (a :: l) = List.find? p l := by
  simp [List.find?_cons, h]

theorem userId_upd (uid st : String) (a : AttRec) :
    (if a.user_id == uid then (⟨a.user_id, st⟩ : AttRec) else a).user_id = a.user_id := by
  split <;> rfl

theorem find?_upd (l : List AttRec) (uid st : String)
    (h : l.any (fun a => a.user_id == uid) = true) :
    (l.map (fun a => if a.user_id == uid then (⟨a.user_id, st⟩ : AttRec) else a)).find?
      (fun a => a.user_id == uid) = some ⟨uid, st⟩ := by
  induction l with
  | nil => simp at h
  | cons a t ih =>
    simp only [List.map_cons]
    by_cases ha : (a.user_id == uid) = true
    · rw [if_pos ha]
      rw [find?_cons_true (fun x : AttRec => x.user_id == uid) ⟨a.user_id, st⟩ _ ha]
      rw [eq_of_beq ha]
    · rw [if_neg ha]
      rw [find?_cons_false (fun x : AttRec => x.user_id == uid) a _ (by simpa using ha)]
      apply ih
      simpa [ha] using h

theorem statusOf_add (l : List AttRec) (uid st : String) :
    statusOf (add_event_attendee l uid st) uid = some st := by
  unfold add_event_attendee statusOf
  by_cases h : l.any (fun a => a.user_id == uid) = true
  · rw [if_pos h, find?_upd l uid st h]
    rfl
  · rw [if_neg h]
    have hnone : l.find? (fun a => a.user_id == uid) = none := by
      rw [List.find?_eq_none]
      intro x hx hpx
      exact h (List.any_eq_true.mpr ⟨x, hx, hpx⟩)
    rw [List.find?_append, hnone]
    simp

theorem filter_upd (l : List AttRec) (uid st : String)
    (h1 : (l.filter (fun a => a.user_id == uid)).length ≤ 1)
    (h2 : l.any (fun a => a.user_id == uid) = true) :
    (l.map (fun a => if a.user_id == uid then (⟨a.user_id, st⟩ : AttRec) else a)).filter
      (fun a => a.user_id == uid) = [⟨uid, st⟩] := by
  induction l with
  | nil => simp at h2
  | cons a t ih =>
    simp only [List.map_cons]
    by_cases ha : (a.user_id == uid) = true
    · rw [if_pos ha]
      rw [filter_cons_true (fun x : AttRec => x.user_id == uid) a t ha] at h1
      have htail : t.filter (fun a => a.user_id == uid) = [] := by
        have hlen : (t.filter (fun a => a.user_id == uid)).length = 0 := by
          simp only [List.length_cons] at h1
          omega
        exact List.length_eq_zero.mp hlen
      have hmapped : (t.map (fun a => if a.user_id == uid then
          (⟨a.user_id, st⟩ : AttRec) else a)).filter (fun a => a.user_id == uid) = [] := by
        rw [List.filter_eq_nil_iff]
        intro x hx
        obtain ⟨b, hb, hbx⟩ := List.mem_map.mp hx
        have hbk : (b.user_id == uid) = false := by
          by_contra hcon
          have hbmem : b ∈ t.filter (fun a => a.user_id == uid) :=
            List.mem_filter.mpr ⟨hb, by revert hcon; cases b.user_id == uid <;> simp⟩
          rw [htail] at hbmem
          cases hbmem
        rw [← hbx, userId_upd, hbk]
        simp
      rw [filter_cons_true (fun x : AttRec => x.user_id == uid) ⟨a.user_id, st⟩ _ ha]
      rw [hmapped, eq_of_beq ha]
    · rw [if_neg ha]
      have ha2 : (a.user_id == uid) = false := by simpa using ha
      rw [filter_cons_false (fun x : AttRec => x.user_id == uid) a _ ha2]
      rw [filter_cons_false (fun x : AttRec => x.user_id == uid) a t ha2] at h1
      apply ih h1
      simpa [ha] using h2

theorem recordsFor_add (l : List AttRec) (uid st : String)
    (h : (recordsFor l uid).length ≤ 1) :
    recordsFor (add_event_attendee l uid st) uid = [⟨uid, st⟩] := by
  unfold recordsFor at *
  unfold add_event_attendee
  by_cases hany : l.any (fun a => a.user_id == uid) = true
  · rw [if_pos hany]
    exact filter_upd l uid st h hany
  · rw [if_neg hany]
    have hnil : l.filter (fun a => a.user_id == uid) = [] := by
      rw [List.filter_eq_nil_iff]
      intro x hx hpx
      exact hany (List.any_eq_true.mpr ⟨x, hx, hpx⟩)
    rw [List.filter_append, hnil]
    simp

theorem users_upd (l : List AttRec) (uid st : String) :
    (l.map (fun a => if a.user_id == uid then (⟨a.user_id, st⟩ : AttRec) else a)).map
      (fun a => a.user_id) = l.map (fun a => a.user_id) := by
  rw [List.map_map]
  apply List.map_congr_left
  intro a _
  exact userId_upd uid st a

theorem attendeesWF_filter (l : List AttRec) (p : AttRec → Bool)
    (h : attendeesWF l) : attendeesWF (l.filter p) := by
  unfold attendeesWF at *
  exact ((List.filter_sublist l).map (fun a => a.user_id)).nodup h

theorem waitlist_promote (l : List AttRec) (w : AttRec) (rest : List AttRec)
    (hnd : attendeesWF l) (hw : waitlistOf l = w :: rest) :
    waitlistOf (l.map (fun a => if a.user_id == w.user_id then
      (⟨a.user_id, "ATTENDING"⟩ : AttRec) else a)) = rest := by
  induction l generalizing w rest with
  | nil => simp [waitlistOf] at hw
  | cons a t ih =>
    unfold attendeesWF at hnd
    rw [List.map_cons, List.nodup_cons] at hnd
    obtain ⟨hnotin, hndt⟩ := hnd
    unfold waitlistOf at hw ⊢
    simp only [List.map_cons]
    by_cases hwait : (a.rsvp_status == "WAITLIST") = true
    · rw [filter_cons_true (fun x : AttRec => x.rsvp_status == "WAITLIST") a t hwait] at hw
      obtain ⟨haw, htail⟩ := List.cons_eq_cons.mp hw
      subst haw
      rw [if_pos (by simp)]
      rw [filter_cons_false (fun x : AttRec => x.rsvp_status == "WAITLIST")
        ⟨a.user_id, "ATTENDING"⟩ _ (by simp)]
      have hid : (t.map (fun x => if x.user_id == a.user_id then
          (⟨x.user_id, "ATTENDING"⟩ : AttRec) else x)) = t := by
        have hpt : ∀ x ∈ t, (if x.user_id == a.user_id then
            (⟨x.user_id, "ATTENDING"⟩ : AttRec) else x) = x := by
          intro x hx
          have hne : ¬ x.user_id = a.user_id := by
            intro hcon
            exact hnotin (by rw [← hcon]; exact List.mem_map_of_mem _ hx)
          rw [if_neg (by simpa using hne)]
        calc (t.map _) = t.map id := List.map_congr_left (by simpa using hpt)
        _ = t := List.map_id t
      rw [hid, htail]
    · have hwait2 : (a.rsvp_status == "WAITLIST") = false := by simpa using hwait
      rw [filter_cons_false (fun x : AttRec => x.rsvp_status == "WAITLIST") a t hwait2] at hw
      have hwa : ¬ a.user_id = w.user_id := by
        intro hcon
        have hwmem : w ∈ t := (List.mem_filter.mp (by rw [hw]; exact List.mem_cons_self w rest)).1
        exact hnotin (by rw [hcon]; exact List.mem_map_of_mem _ hwmem)
      rw [if_neg (by simpa using hwa)]
      rw [filter_cons_false (fun x : AttRec => x.rsvp_status == "WAITLIST") a _ hwait2]
      exact ih w rest hndt hw

theorem mem_add_users (l : List AttRec) (uid st : String) (a : AttRec)
    (hany : l.any (fun x : AttRec => x.user_id == uid) = true)
    (ha : a ∈ add_event_attendee l uid st) :
    a.user_id ∈ l.map (fun x => x.user_id) := by
  unfold add_event_attendee at ha
  rw [if_pos hany] at ha
  obtain ⟨b, hb, hba⟩ := List.mem_map.mp ha
  rw [← hba, userId_upd]
  exact List.mem_map_of_mem _ hb

/-! ## Lemmas about the parsed-argument dict -/

theorem dictInsert_filter_self (m : List (String × String)) (k v : String)
    (h : (m.filter (fun p => p.1 == k)).length ≤ 1) :
    (dictInsert m k v).filter (fun p => p.1 == k) = [(k, v)] := by
  unfold dictInsert
  by_cases hany : m.any (fun p => p.1 == k) = true
  · rw [if_pos hany]
    induction m with
    | nil => simp at hany
    | cons q t ih =>
      simp only [List.map_cons]
      by_cases hq : (q.1 == k) = true
      · rw [if_pos hq]
        rw [filter_cons_true (fun p : String × String => p.1 == k) q t hq] at h
        have htail : t.filter (fun p => p.1 == k) = [] := by
          have hlen : (t.filter (fun p => p.1 == k)).length = 0 := by
            simp only [List.length_cons] at h
            omega
          exact List.length_eq_zero.mp hlen
        have hmapped : (t.map (fun p => if p.1 == k then (p.1, v) else p)).filter
            (fun p => p.1 == k) = [] := by
          rw [List.filter_eq_nil_iff]
          intro x hx
          obtain ⟨b, hb, hbx⟩ := List.mem_map.mp hx
          have hbk : (b.1 == k) = false := by
            by_contra hcon
            have hbmem : b ∈ t.filter (fun p => p.1 == k) :=
              List.mem_filter.mpr ⟨hb, by revert hcon; cases b.1 == k <;> simp⟩
            rw [htail] at hbmem
            cases hbmem
          have hfst : ((if b.1 == k then (b.1, v) else b) : String × String).1 = b.1 := by
            split <;> rfl
          rw [← hbx, hfst, hbk]
          simp
        rw [filter_cons_true (fun p : String × String => p.1 == k) (q.1, v) _ hq]
        rw [hmapped, eq_of_beq hq]
      · rw [if_neg hq]
        have hq2 : (q.1 == k) = false := by simpa using hq
        rw [filter_cons_false (fun p : String × String => p.1 == k) q _ hq2]
        rw [filter_cons_false (fun p : String × String => p.1 == k) q t hq2] at h
        apply ih h
        simpa [hq] using hany
  · rw [if_neg hany]
    have hnil : m.filter (fun p => p.1 == k) = [] := by
      rw [List.filter_eq_nil_iff]
      intro x hx hpx
      exact hany (List.any_eq_true.mpr ⟨x, hx, hpx⟩)
    rw [List.filter_append, hnil]
    simp

theorem dictInsert_filter_other (m : List (String × String)) (k v k2 : String)
    (hne : (k == k2) = false) :
    (dictInsert m k v).filter (fun p => p.1 == k2) = m.filter (fun p => p.1 == k2) := by
  unfold dictInsert
  by_cases hany : m.any (fun p => p.1 == k) = true
  · rw [if_pos hany]
    induction m with
    | nil => rfl
    | cons q t ih =>
      simp only [List.map_cons]
      by_cases hq : (q.1 == k) = true
      · rw [if_pos hq]
        have hq2 : (q.1 == k2) = false := by
          have : q.1 = k := eq_of_beq hq
          rw [this]; exact hne
        rw [filter_cons_false (fun p : String × String => p.1 == k2) (q.1, v) _ hq2]
        rw [filter_cons_false (fun p : String × String => p.1 == k2) q t hq2]
        by_cases htany : t.any (fun p => p.1 == k) = true
        · exact ih htany
        · have hmapped : (t.map (fun p => if p.1 == k then (p.1, v) else p)) = t := by
            have hpt : ∀ p ∈ t, ((if p.1 == k then (p.1, v) else p) : String × String) = p := by
              intro p hp
              rw [if_neg]
              intro hcon
              exact htany (List.any_eq_true.mpr ⟨p, hp, hcon⟩)
            calc (t.map _) = t.map id := List.map_congr_left (by simpa using hpt)
            _ = t := List.map_id t
          rw [hmapped]
      · rw [if_neg hq]
        by_cases hq2 : (q.1 == k2) = true
        · rw [filter_cons_true (fun p : String × String => p.1 == k2) q _ hq2]
          rw [filter_cons_true (fun p : String × String => p.1 == k2) q t hq2]
          have htany : t.any (fun p => p.1 == k) = true := by simpa [hq] using hany
          rw [ih htany]
        · have hq2f : (q.1 == k2) = false := by simpa using hq2
          rw [filter_cons_false (fun p : String × String => p.1 == k2) q _ hq2f]
          rw [filter_cons_false (fun p : String × String => p.1 == k2) q t hq2f]
          have htany : t.any (fun p => p.1 == k) = true := by simpa [hq] using hany
          exact ih htany
  · rw [if_neg hany]
    rw [List.filter_append]
    have : (((k, v) : String × String).1 == k2) = false := hne
    rw [filter_cons_false (fun p : String × String => p.1 == k2) (k, v) [] this]
    simp

theorem foldl_dictInsert_absent (ps : List (String × String)) (m : List (String × String))
    (k : String) (hps : ps.filter (fun p => p.1 == k) = []) :
    (ps.foldl (fun acc p => dictInsert acc p.1 p.2) m).filter (fun p => p.1 == k)
      = m.filter (fun p => p.1 == k) := by
  induction ps generalizing m with
  | nil => rfl
  | cons q t ih =>
    have hq : (q.1 == k) = false := by
      by_contra hcon
      have : q ∈ (q :: t).filter (fun p => p.1 == k) :=
        List.mem_filter.mpr ⟨List.mem_cons_self q t, by revert hcon; cases q.1 == k <;> simp⟩
      rw [hps] at this
      cases this
    rw [filter_cons_false (fun p : String × String => p.1 == k) q t hq] at hps
    simp only [List.foldl_cons]
    rw [ih (dictInsert m q.1 q.2) hps]
    exact dictInsert_filter_other m q.1 q.2 k hq

theorem foldl_dictInsert_single (ps : List (String × String)) (m : List (String × String))
    (k v : String) (hm : (m.filter (fun p => p.1 == k)).length ≤ 1)
    (hps : ps.filter (fun p => p.1 == k) = [(k, v)]) :
    (ps.foldl (fun acc p => dictInsert acc p.1 p.2) m).filter (fun p => p.1 == k)
      = [(k, v)] := by
  induction ps generalizing m with
  | nil => simp at hps
  | cons q t ih =>
    simp only [List.foldl_cons]
    by_cases hq : (q.1 == k) = true
    · rw [filter_cons_true (fun p : String × String => p.1 == k) q t hq] at hps
      obtain ⟨hqv, htail⟩ := List.cons_eq_cons.mp hps
      rw [foldl_dictInsert_absent t (dictInsert m q.1 q.2) k htail]
      rw [hqv]
      exact dictInsert_filter_self m k v hm
    · have hq2 : (q.1 == k) = false := by simpa using hq
      rw [filter_cons_false (fun p : String × String => p.1 == k) q t hq2] at hps
      apply ih (dictInsert m q.1 q.2) _ hps
      rw [dictInsert_filter_other m q.1 q.2 k hq2]
      exact hm

/-! ## Lemmas about member lists -/

theorem membersWF_count (ms : List Member) (uid : String) (hnd : membersWF ms) :
    (ms.filter (fun m => m.user_id == uid)).length ≤ 1 := by
  induction ms with
  | nil => simp
  | cons a t ih =>
    unfold membersWF at hnd
    rw [List.map_cons, List.nodup_cons] at hnd
    obtain ⟨hnotin, hndt⟩ := hnd
    by_cases ha : (a.user_id == uid) = true
    · rw [filter_cons_true (fun m : Member => m.user_id == uid) a t ha]
      have htail : t.filter (fun m => m.user_id == uid) = [] := by
        rw [List.filter_eq_nil_iff]
        intro x hx hpx
        have : x.user_id = uid := eq_of_beq hpx
        have : x.user_id = a.user_id := by rw [this, eq_of_beq ha]
        exact hnotin (by rw [← this]; exact List.mem_map_of_mem _ hx)
      rw [htail]
      simp
    · have ha2 : (a.user_id == uid) = false := by simpa using ha
      rw [filter_cons_false (fun m : Member => m.user_id == uid) a t ha2]
      exact ih hndt

theorem isLeaderB_isMemberB (ms : List Member) (uid : String)
    (h : isLeaderB ms uid = true) : isMemberB ms uid = true := by
  unfold isLeaderB at h
  unfold isMemberB
  obtain ⟨m, hm, hp⟩ := List.any_eq_true.mp h
  rw [Bool.and_eq_true] at hp
  exact List.any_eq_true.mpr ⟨m, hm, hp.1⟩

theorem leaders_remove (ms : List Member) (uid : String) (hnd : membersWF ms)
    (hl : isLeaderB ms uid = true) :
    (leadersOf (remove_group_member ms uid)).length + 1 = (leadersOf ms).length := by
  induction ms with
  | nil => simp [isLeaderB] at hl
  | cons a t ih =>
    unfold membersWF at hnd
    rw [List.map_cons, List.nodup_cons] at hnd
    obtain ⟨hnotin, hndt⟩ := hnd
    unfold remove_group_member leadersOf at *
    by_cases ha : (a.user_id == uid) = true
    · have halead : a.is_leader = true := by
        obtain ⟨m, hm, hp⟩ := List.any_eq_true.mp hl
        rw [Bool.and_eq_true] at hp
        rcases List.mem_cons.mp hm with hma | hmt
        · rw [← hma]; exact hp.2
        · exfalso
          apply hnotin
          rw [eq_of_beq ha, ← eq_of_beq hp.1]
          exact List.mem_map_of_mem _ hmt
      rw [filter_cons_false (fun m : Member => !(m.user_id == uid)) a t (by simp [ha])]
      rw [filter_cons_true (fun m : Member => m.is_leader) a t halead]
      have htid : t.filter (fun m => !(m.user_id == uid)) = t := by
        rw [List.filter_eq_self]
        intro x hx
        have hxne : (x.user_id == uid) = false := by
          by_contra hcon
          have hxeq : x.user_id = uid := by
            apply eq_of_beq
            revert hcon
            cases x.user_id == uid <;> simp
          apply hnotin
          rw [eq_of_beq ha, ← hxeq]
          exact List.mem_map_of_mem _ hx
        simp [hxne]
      rw [htid, List.length_cons]
    · have ha2 : (a.user_id == uid) = false := by simpa using ha
      have hlt : isLeaderB t uid = true := by
        unfold isLeaderB at hl ⊢
        obtain ⟨m, hm, hp⟩ := List.any_eq_true.mp hl
        rcases List.mem_cons.mp hm with hma | hmt
        · rw [Bool.and_eq_true] at hp
          rw [← hma] at ha2
          rw [hp.1] at ha2
          cases ha2
        · exact List.any_eq_true.mpr ⟨m, hmt, hp⟩
      rw [filter_cons_true (fun m : Member => !(m.user_id == uid)) a t (by simp [ha2])]
      by_cases halead : a.is_leader = true
      · rw [filter_cons_true (fun m : Member => m.is_leader) a
          (t.filter (fun m => !(m.user_id == uid))) halead]
        rw [filter_cons_true (fun m : Member => m.is_leader) a t halead]
        simp only [List.length_cons]
        have hrec := ih hndt hlt
        omega
      · have halead2 : a.is_leader = false := by simpa using halead
        rw [filter_cons_false (fun m : Member => m.is_leader) a
          (t.filter (fun m => !(m.user_id == uid))) halead2]
        rw [filter_cons_false (fun m : Member => m.is_leader) a t halead2]
        exact ih hndt hlt

theorem argGet_ne_nil (args : List (String × String)) (k v : String)
    (h : argGet args k = some v) : args.isEmpty = false := by
  cases args with
  | nil => simp [argGet] at h
  | cons q t => rfl

theorem maxFull_none (count : Nat) : maxFull none count = false := rfl

theorem maxFull_some (m : Int) (count : Nat) :
    maxFull (some m) count
      = if (m == 0) = true then false else decide (m ≤ (count : Int)) := rfl

/-! ## Concrete fixtures used by the claim theorems -/

/-- A group with approval mode none, open event creation. -/
def gOpen : GroupRec := ⟨"Board Games", "", true, true, "none", "host", none⟩

/-- A reference wall-clock instant, exactly on a minute boundary. -/
def clock0 : DT := ⟨2024, 3, 20, 19, 0, 0, 0⟩

/-- An approved event hosted by u1, no capacity. -/
def evApproved : EventRec :=
  ⟨"u1", "Game Night", ⟨2099, 1, 1, 10, 0, 0, 0⟩, "", "", "", none, true, "approved"⟩

/-- The approved event with max_attendees stored as 0. -/
def evCapZero : EventRec := { evApproved with max_attendees := some 0 }

/-- The approved event with max_attendees 1. -/
def evCapOne : EventRec := { evApproved with max_attendees := some 1 }

/-- The approved event with max_attendees 2. -/
def evCapTwo : EventRec := { evApproved with max_attendees := some 2 }

/-- An event whose stored date-time is half an hour before clock0. -/
def evHalfPast : EventRec :=
  ⟨"u1", "Game Night", ⟨2024, 3, 20, 18, 30, 0, 0⟩, "", "", "", none, true, "approved"⟩

/-- The spec example message for the parser. -/
def msgExample : String :=
  "event new name=\"Game Night\" date=\"2024-03-20\" time=\"19:00\""

/-! ## Claim theorems -/

/-- C1: the claim that every malformed argument yields a typed failure is
right about the intended design but wrong about the code: a non-numeric
max on event creation reaches a bare int() outside the try block, a
non-numeric contributor_events_required on group creation reaches a bare
int() inside a try that only catches the chat-platform HTTP error, and a
host-change user argument with no digits makes the [0] indexing of the
digit-run list raise IndexError; each handler dies with an uncaught
exception instead of a typed failure. -/
theorem malformed_args_crash :
    event_create gOpen true "u1"
      [("name", "Game Night"), ("date", "2099-01-01"), ("time", "10:00"), ("max", "soon")]
      clock0 = .crash "ValueError"
    ∧ group_create true [] "u1"
      [("name", "Chess"), ("contributor_events_required", "three")] = .crash "ValueError"
    ∧ event_change_host evApproved true [⟨"u1", true⟩] "u1"
      [("user", "@nobody")] [] = .crash "IndexError" :=
  ⟨rfl, rfl, rfl⟩

/-- C2 counterexample: an event whose instant is exactly the wall-clock
time observed at validation is not strictly after it, yet creation
succeeds; the guard in the source is a strict less-than, so equality
passes. -/
theorem create_at_boundary_accepted :
    parseDateTime "2024-03-20" "19:00" = some clock0
    ∧ dtLt clock0 clock0 = false
    ∧ event_create gOpen true "u1"
      [("name", "Game Night"), ("date", "2024-03-20"), ("time", "19:00")] clock0
      = .success (⟨"u1", "Game Night", clock0, "", "", "", none, true, "approved"⟩,
        [⟨"u1", "ATTENDING"⟩]) :=
  ⟨rfl, rfl, rfl⟩

/-- C3 counterexample: with max_attendees stored as 0 the cap is set and
the attending count (0) is at or above it, so the claim demands WAITLIST;
the code tests Python truthiness of max_attendees, 0 is falsy, and the
requester is recorded ATTENDING. -/
theorem capacity_zero_records_attending :
    evCapZero.max_attendees = some 0
    ∧ countAttending ([] : List AttRec) = 0
    ∧ event_confirm evCapZero [⟨"u1", false⟩] [] "u1"
      = .success ([⟨"u1", "ATTENDING"⟩], "ATTENDING") :=
  ⟨rfl, rfl, rfl⟩

/-- C5 counterexample: on a non-full approved event (cap 1, nobody
attending) two successive Rsvp calls by the same requester do not leave an
ATTENDING record: the first fills the event, so the second counts the
requester and upserts them to WAITLIST, changing the outcome. -/
theorem rsvp_twice_demotes_at_boundary :
    maxFull evCapOne.max_attendees (countAttending ([] : List AttRec)) = false
    ∧ event_confirm evCapOne [⟨"u1", false⟩] [] "u1"
      = .success ([⟨"u1", "ATTENDING"⟩], "ATTENDING")
    ∧ event_confirm evCapOne [⟨"u1", false⟩] [⟨"u1", "ATTENDING"⟩] "u1"
      = .success ([⟨"u1", "WAITLIST"⟩], "WAITLIST") :=
  ⟨rfl, rfl, rfl⟩

/-- C6 counterexample: the input contains the quoted token k="v w", yet
the resulting mapping binds k to u: the later unquoted occurrence of the
same key overwrites the quoted value, so a quoted match does not take
precedence over an unquoted match for the same key. -/
theorem parser_unquoted_overwrites_quoted :
    parse_command_args "event k=\"v w\" k=u" = [("k", "u")] := rfl

/-- C8 counterexample: a time-only modification whose merged instant
equals the wall clock is not strictly in the future, yet the update is
applied; the re-validation after the merge is a strict less-than, so the
boundary instant passes. -/
theorem modify_at_boundary_accepted :
    mergeTime evHalfPast.date_time 19 0 = clock0
    ∧ event_modify evHalfPast true false [("time", "19:00")] clock0
      = .success { evHalfPast with date_time := clock0 } :=
  ⟨rfl, rfl⟩

/-- C2 amended: for both operations that set or change the event
date/time. Creation: whenever the arguments pass the permission and
presence checks and parse to an instant, the operation fails with
InvalidDateTime exactly when that instant is strictly before the wall
clock observed at validation, and never produces InvalidDateTime when the
instant is at or after it — in particular a past date/time always fails,
regardless of the other fields supplied. Modification: whenever the
requester is permitted, a present max argument parses, and the supplied
date/time components merge (by the same strptime/replace steps the
handler performs) to an instant, the operation fails with InvalidDateTime
exactly when the merged instant is strictly before the wall clock, and
never produces InvalidDateTime otherwise. -/
theorem event_datetime_past_rejected :
    (∀ (g : GroupRec) (isL : Bool) (hostId : String)
      (args : List (String × String)) (now : DT) (nm ds ts : String) (dt : DT),
      g.new_members_can_create_events = true ∨ isL = true →
      getTruthy args "name" = some nm →
      getTruthy args "date" = some ds →
      getTruthy args "time" = some ts →
      parseDateTime ds ts = some dt →
      (dtLt dt now = true →
        event_create g isL hostId args now = .failure "InvalidDateTime")
      ∧ (dtLt dt now = false →
        event_create g isL hostId args now ≠ .failure "InvalidDateTime"))
    ∧ (∀ (ev : EventRec) (isH isL : Bool)
      (args : List (String × String)) (now : DT) (merged : DT),
      isH = true ∨ isL = true →
      (argGet args "max" = none
        ∨ ∃ s n, argGet args "max" = some s ∧ pyIntParse s = some n) →
      modifyMerged ev args = some merged →
      (dtLt merged now = true →
        event_modify ev isH isL args now = .failure "InvalidDateTime")
      ∧ (dtLt merged now = false →
        event_modify ev isH isL args now ≠ .failure "InvalidDateTime")) := by
  constructor
  · intro g isL hostId args now nm ds ts dt hperm hname hdate htime hparse
    have hguard : (!g.new_members_can_create_events && !isL) = false := by
      rcases hperm with h | h <;> simp [h]
    constructor
    · intro hlt
      simp only [event_create, hguard, Bool.false_eq_true, if_false, hname, hdate,
        htime, hparse, hlt, if_true]
    · intro hge
      simp only [event_create, hguard, Bool.false_eq_true, if_false, hname, hdate,
        htime, hparse, hge]
      cases hmax : getTruthy args "max" with
      | none => simp
      | some s =>
        cases hint : pyIntParse s with
        | none => simp [hint]
        | some n => simp [hint]
  · intro ev isH isL args now merged hperm hmaxok hmerged
    have hguard : (!isH && !isL) = false := by
      rcases hperm with h | h <;> simp [h]
    unfold modifyMerged at hmerged
    cases hdate : argGet args "date" with
    | none =>
      cases htime : argGet args "time" with
      | none =>
        simp only [hdate, htime] at hmerged
        cases hmerged
      | some ts =>
        simp only [hdate, htime] at hmerged
        have hne := argGet_ne_nil args "time" ts htime
        cases hpt : parseTimeOnly ts with
        | none => simp [hpt] at hmerged
        | some hm =>
          obtain ⟨h, mi⟩ := hm
          rw [hpt] at hmerged
          simp only [Option.map_some', Option.some.injEq] at hmerged
          subst hmerged
          constructor
          · intro hlt
            rcases hmaxok with hmx | ⟨s, n, hs, hn⟩
            · simp only [event_modify, hguard, Bool.false_eq_true, if_false, hne,
                hmx, hdate, htime, hpt, Option.isSome_some, Option.isSome_none,
                Bool.or_true, Bool.false_or, if_true, hlt]
            · simp only [event_modify, hguard, Bool.false_eq_true, if_false, hne,
                hs, hn, hdate, htime, hpt, Option.isSome_some, Option.isSome_none,
                Bool.or_true, Bool.false_or, if_true, hlt]
          · intro hge
            rcases hmaxok with hmx | ⟨s, n, hs, hn⟩
            · simp only [event_modify, hguard, Bool.false_eq_true, if_false, hne,
                hmx, hdate, htime, hpt, Option.isSome_some, Option.isSome_none,
                Bool.or_true, Bool.false_or, if_true, hge]
              simp
            · simp only [event_modify, hguard, Bool.false_eq_true, if_false, hne,
                hs, hn, hdate, htime, hpt, Option.isSome_some, Option.isSome_none,
                Bool.or_true, Bool.false_or, if_true, hge]
              simp
    | some ds =>
      have hne := argGet_ne_nil args "date" ds hdate
      cases htime : argGet args "time" with
      | none =>
        simp only [hdate, htime] at hmerged
        cases hpd : parseDateOnly ds with
        | none => simp [hpd] at hmerged
        | some ymd =>
          obtain ⟨y, m, d⟩ := ymd
          rw [hpd] at hmerged
          simp only [Option.map_some', Option.some.injEq] at hmerged
          subst hmerged
          constructor
          · intro hlt
            rcases hmaxok with hmx | ⟨s, n, hs, hn⟩
            · simp only [event_modify, hguard, Bool.false_eq_true, if_false, hne,
                hmx, hdate, htime, hpd, Option.isSome_some, Option.isSome_none,
                Bool.true_or, Bool.false_or, if_true, hlt]
            · simp only [event_modify, hguard, Bool.false_eq_true, if_false, hne,
                hs, hn, hdate, htime, hpd, Option.isSome_some, Option.isSome_none,
                Bool.true_or, Bool.false_or, if_true, hlt]
          · intro hge
            rcases hmaxok with hmx | ⟨s, n, hs, hn⟩
            · simp only [event_modify, hguard, Bool.false_eq_true, if_false, hne,
                hmx, hdate, htime, hpd, Option.isSome_some, Option.isSome_none,
                Bool.true_or, Bool.false_or, Bool.or_true, if_true, hge]
              simp
            · simp only [event_modify, hguard, Bool.false_eq_true, if_false, hne,
                hs, hn, hdate, htime, hpd, Option.isSome_some, Option.isSome_none,
                Bool.true_or, Bool.false_or, Bool.or_true, if_true, hge]
              simp
      | some ts =>
        simp only [hdate, htime] at hmerged
        cases hpd : parseDateOnly ds with
        | none =>
          simp only [hpd] at hmerged
          cases hmerged
        | some ymd =>
          obtain ⟨y, m, d⟩ := ymd
          simp only [hpd] at hmerged
          cases hpt : parseTimeOnly ts with
          | none => simp [hpt] at hmerged
          | some hm =>
            obtain ⟨h, mi⟩ := hm
            rw [hpt] at hmerged
            simp only [Option.map_some', Option.some.injEq] at hmerged
            subst hmerged
            constructor
            · intro hlt
              rcases hmaxok with hmx | ⟨s, n, hs, hn⟩
              · simp only [event_modify, hguard, Bool.false_eq_true, if_false, hne,
                  hmx, hdate, htime, hpd, hpt, Option.isSome_some,
                  Option.isSome_none, Bool.true_or, Bool.false_or, if_true, hlt]
              · simp only [event_modify, hguard, Bool.false_eq_true, if_false, hne,
                  hs, hn, hdate, htime, hpd, hpt, Option.isSome_some,
                  Option.isSome_none, Bool.true_or, Bool.false_or, if_true, hlt]
            · intro hge
              rcases hmaxok with hmx | ⟨s, n, hs, hn⟩
              · simp only [event_modify, hguard, Bool.false_eq_true, if_false, hne,
                  hmx, hdate, htime, hpd, hpt, Option.isSome_some,
                  Option.isSome_none, Bool.true_or, Bool.false_or, Bool.or_true,
                  if_true, hge]
                simp
              · simp only [event_modify, hguard, Bool.false_eq_true, if_false, hne,
                  hs, hn, hdate, htime, hpd, hpt, Option.isSome_some,
                  Option.isSome_none, Bool.true_or, Bool.false_or, Bool.or_true,
                  if_true, hge]
                simp

/-- C2 amended, witness: a past-dated creation request fails with
InvalidDateTime, and so does a modification that moves an approved event
into the past. -/
theorem event_datetime_past_rejected_witness :
    event_create gOpen true "u1"
      [("name", "Game Night"), ("date", "2020-01-05"), ("time", "10:30")] clock0
      = .failure "InvalidDateTime"
    ∧ event_modify evApproved true false
      [("date", "2020-01-05"), ("time", "10:30")] clock0
      = .failure "InvalidDateTime" := by
  constructor
  · exact (event_datetime_past_rejected.1 gOpen true "u1"
      [("name", "Game Night"), ("date", "2020-01-05"), ("time", "10:30")] clock0
      "Game Night" "2020-01-05" "10:30" ⟨2020, 1, 5, 10, 30, 0, 0⟩
      (Or.inl rfl) rfl rfl rfl rfl).1 rfl
  · exact (event_datetime_past_rejected.2 evApproved true false
      [("date", "2020-01-05"), ("time", "10:30")] clock0
      ⟨2020, 1, 5, 10, 30, 0, 0⟩ (Or.inl rfl) (Or.inl rfl) rfl).1 rfl

/-- C3 amended: for an approved event and a member requester, a stored
nonzero capacity at or below the current ATTENDING count records the
requester as WAITLIST and never ATTENDING; with no capacity, a zero
capacity, or a count below the capacity the requester is recorded
ATTENDING (the source tests Python truthiness of max_attendees, so the
stored value 0 disables the cap). -/
theorem event_confirm_capacity (ev : EventRec) (members : List Member)
    (atts : List AttRec) (uid : String)
    (happ : ev.status = "approved") (hmem : isMemberB members uid = true) :
    (∀ m : Int, ev.max_attendees = some m → ¬ m = 0 →
      m ≤ (countAttending atts : Int) →
      event_confirm ev members atts uid
        = .success (add_event_attendee atts uid "WAITLIST", "WAITLIST")
      ∧ statusOf (add_event_attendee atts uid "WAITLIST") uid = some "WAITLIST")
    ∧ ((∀ m : Int, ev.max_attendees = some m → ¬ m = 0 →
      (countAttending atts : Int) < m) →
      event_confirm ev members atts uid
        = .success (add_event_attendee atts uid "ATTENDING", "ATTENDING")
      ∧ statusOf (add_event_attendee atts uid "ATTENDING") uid = some "ATTENDING") := by
  have hst : (ev.status != "approved") = false := by simp [happ]
  constructor
  · intro m hm hm0 hcap
    have hfull : maxFull ev.max_attendees
        (atts.filter (fun a => a.rsvp_status == "ATTENDING")).length = true := by
      rw [hm, maxFull_some]
      rw [if_neg (by simpa using hm0)]
      exact decide_eq_true hcap
    constructor
    · simp only [event_confirm, hst, Bool.false_eq_true, if_false, hmem, if_true,
        hfull]
      simp
    · exact statusOf_add atts uid "WAITLIST"
  · intro hbelow
    have hfull : maxFull ev.max_attendees
        (atts.filter (fun a => a.rsvp_status == "ATTENDING")).length = false := by
      cases hm : ev.max_attendees with
      | none => rfl
      | some m =>
        rw [maxFull_some]
        by_cases hm0 : m = 0
        · rw [if_pos (by simpa using hm0)]
        · rw [if_neg (by simpa using hm0)]
          have := hbelow m hm hm0
          unfold countAttending at this
          simp only [decide_eq_false_iff_not]
          omega
    constructor
    · simp only [event_confirm, hst, Bool.false_eq_true, if_false, hmem, if_true,
        hfull]
      simp
    · exact statusOf_add atts uid "ATTENDING"

/-- C3 amended, witness: the spec scenario — cap 2, two ATTENDING rows, a
third member confirms and is waitlisted, never attending. -/
theorem event_confirm_capacity_witness :
    event_confirm evCapTwo [⟨"u3", false⟩]
      [⟨"u1", "ATTENDING"⟩, ⟨"u2", "ATTENDING"⟩] "u3"
      = .success ([⟨"u1", "ATTENDING"⟩, ⟨"u2", "ATTENDING"⟩, ⟨"u3", "WAITLIST"⟩],
        "WAITLIST") := by
  have h := (event_confirm_capacity evCapTwo [⟨"u3", false⟩]
      [⟨"u1", "ATTENDING"⟩, ⟨"u2", "ATTENDING"⟩] "u3" rfl rfl).1 2 rfl
      (by decide) (by decide)
  exact h.1

/-- C5 amended: two successive Rsvp calls by the same requester leave
exactly one attendee record for the pair, with status ATTENDING, provided
the event is still non-full when the second call counts attendees (the
requester, recorded ATTENDING by the first call, then counts toward the
cap); the second call upserts rather than duplicating. -/
theorem rsvp_idempotent_nonfull (ev : EventRec) (members : List Member)
    (atts : List AttRec) (uid : String)
    (happ : ev.status = "approved") (hmem : isMemberB members uid = true)
    (hcnt : (recordsFor atts uid).length ≤ 1)
    (h1 : maxFull ev.max_attendees (countAttending atts) = false)
    (h2 : maxFull ev.max_attendees
      (countAttending (add_event_attendee atts uid "ATTENDING")) = false) :
    event_confirm ev members atts uid
      = .success (add_event_attendee atts uid "ATTENDING", "ATTENDING")
    ∧ event_confirm ev members (add_event_attendee atts uid "ATTENDING") uid
      = .success (add_event_attendee (add_event_attendee atts uid "ATTENDING")
          uid "ATTENDING", "ATTENDING")
    ∧ recordsFor (add_event_attendee (add_event_attendee atts uid "ATTENDING")
        uid "ATTENDING") uid = [⟨uid, "ATTENDING"⟩] := by
  have hst : (ev.status != "approved") = false := by simp [happ]
  unfold countAttending at h1 h2
  refine ⟨?_, ?_, ?_⟩
  · simp only [event_confirm, hst, Bool.false_eq_true, if_false, hmem, if_true, h1]
    simp
  · simp only [event_confirm, hst, Bool.false_eq_true, if_false, hmem, if_true, h2]
    simp
  · have hone : recordsFor (add_event_attendee atts uid "ATTENDING") uid
        = [⟨uid, "ATTENDING"⟩] := recordsFor_add atts uid "ATTENDING" hcnt
    apply recordsFor_add
    rw [hone]
    simp

/-- C5 amended, witness: cap 5, empty attendance, two Rsvp calls by u1
leave the single record u1 ATTENDING. -/
theorem rsvp_idempotent_nonfull_witness :
    event_confirm { evApproved with max_attendees := some 5 } [⟨"u1", false⟩] [] "u1"
      = .success ([⟨"u1", "ATTENDING"⟩], "ATTENDING")
    ∧ event_confirm { evApproved with max_attendees := some 5 } [⟨"u1", false⟩]
        [⟨"u1", "ATTENDING"⟩] "u1"
      = .success ([⟨"u1", "ATTENDING"⟩], "ATTENDING")
    ∧ recordsFor [(⟨"u1", "ATTENDING"⟩ : AttRec)] "u1" = [⟨"u1", "ATTENDING"⟩] := by
  have h := rsvp_idempotent_nonfull { evApproved with max_attendees := some 5 }
    [⟨"u1", false⟩] [] "u1" rfl rfl (by decide) (by decide) (by decide)
  exact ⟨h.1, h.2.1, h.2.2⟩

/-- C4: Unconfirm deletes the requester rows outright (the result never
contains a row of the requester, in particular no DECLINED marker); when
the post-removal waitlist is empty the result is exactly the removal and
no promotion occurs (and no error — the operation returns successfully);
when it is nonempty, the operation promotes exactly the first waitlisted
row to ATTENDING and the remaining waitlist is the tail. -/
theorem unconfirm_removes_and_promotes (ev : EventRec) (members : List Member)
    (atts : List AttRec) (uid : String) (hnd : attendeesWF atts) :
    (∀ l p, event_unconfirm ev members atts uid = .success (l, p) →
      ∀ a ∈ l, ¬ a.user_id = uid)
    ∧ (waitlistOf (remove_event_attendee atts uid) = [] →
      event_unconfirm ev members atts uid
        = .success (remove_event_attendee atts uid, none))
    ∧ (∀ w rest, waitlistOf (remove_event_attendee atts uid) = w :: rest →
      event_unconfirm ev members atts uid
        = .success (add_event_attendee (remove_event_attendee atts uid)
            w.user_id "ATTENDING", some w.user_id)
      ∧ statusOf (add_event_attendee (remove_event_attendee atts uid)
          w.user_id "ATTENDING") w.user_id = some "ATTENDING"
      ∧ waitlistOf (add_event_attendee (remove_event_attendee atts uid)
          w.user_id "ATTENDING") = rest) := by
  have hndrm : attendeesWF (remove_event_attendee atts uid) :=
    attendeesWF_filter atts _ hnd
  have hmemrm : ∀ a ∈ remove_event_attendee atts uid, ¬ a.user_id = uid := by
    intro a ha hcon
    have := (List.mem_filter.mp ha).2
    rw [hcon] at this
    simp at this
  refine ⟨?_, ?_, ?_⟩
  · intro l p hres a hal
    cases hwl : waitlistOf (remove_event_attendee atts uid) with
    | nil =>
      simp only [event_unconfirm, hwl] at hres
      rw [OpResult.success.injEq, Prod.mk.injEq] at hres
      obtain ⟨hl, _⟩ := hres
      rw [← hl] at hal
      exact hmemrm a hal
    | cons w rest =>
      simp only [event_unconfirm, hwl] at hres
      rw [OpResult.success.injEq, Prod.mk.injEq] at hres
      obtain ⟨hl, _⟩ := hres
      rw [← hl] at hal
      have hany : (remove_event_attendee atts uid).any
          (fun x => x.user_id == w.user_id) = true := by
        have hwmem : w ∈ remove_event_attendee atts uid := by
          have : w ∈ waitlistOf (remove_event_attendee atts uid) := by
            rw [hwl]; exact List.mem_cons_self w rest
          exact (List.mem_filter.mp this).1
        exact List.any_eq_true.mpr ⟨w, hwmem, by simp⟩
      have hin := mem_add_users (remove_event_attendee atts uid)
        w.user_id "ATTENDING" a hany hal
      obtain ⟨b, hb, hba⟩ := List.mem_map.mp hin
      intro hcon
      rw [← hba] at hcon
      exact hmemrm b hb hcon
  · intro hwl
    simp only [event_unconfirm, hwl]
  · intro w rest hwl
    have hany : (remove_event_attendee atts uid).any
        (fun x => x.user_id == w.user_id) = true := by
      have hwmem : w ∈ remove_event_attendee atts uid := by
        have : w ∈ waitlistOf (remove_event_attendee atts uid) := by
          rw [hwl]; exact List.mem_cons_self w rest
        exact (List.mem_filter.mp this).1
      exact List.any_eq_true.mpr ⟨w, hwmem, by simp⟩
    refine ⟨?_, statusOf_add _ _ _, ?_⟩
    · simp only [event_unconfirm, hwl]
    · unfold add_event_attendee
      rw [if_pos hany]
      exact waitlist_promote (remove_event_attendee atts uid) w rest hndrm hwl

/-- C4, witness: u1 (attending) unconfirms while u2 is the only
waitlisted member; u2 is promoted to ATTENDING. -/
theorem unconfirm_removes_and_promotes_witness :
    event_unconfirm evApproved [] [⟨"u1", "ATTENDING"⟩, ⟨"u2", "WAITLIST"⟩] "u1"
      = .success ([⟨"u2", "ATTENDING"⟩], some "u2") := by
  have h := (unconfirm_removes_and_promotes evApproved []
    [⟨"u1", "ATTENDING"⟩, ⟨"u2", "WAITLIST"⟩] "u1" (by decide)).2.2
    ⟨"u2", "WAITLIST"⟩ [] rfl
  exact h.1

/-- C6 amended: when the argument text yields exactly one quoted binding
for the (lower-cased) key and the unquoted pass over the residual text
yields none, the final mapping binds the key to the quoted value exactly
once; the quoted span is removed before the unquoted pass, so the quoted
pair itself is never re-captured, but a distinct unquoted occurrence of
the same key elsewhere in the text, scanned later, would overwrite the
quoted value. -/
theorem parser_quoted_exactly_once (content k v : String)
    (hq : (quotedPairs content).filter (fun p => p.1 == k) = [(k, v)])
    (hu : (unquotedPairs content).filter (fun p => p.1 == k) = []) :
    (parse_command_args content).filter (fun p => p.1 == k) = [(k, v)] := by
  unfold parse_command_args
  cases hm : argsTextOf content with
  | none =>
    exfalso
    unfold quotedPairs at hq
    rw [hm] at hq
    simp at hq
  | some t =>
    have happ : (quotedPairs content ++ unquotedPairs content).filter
        (fun p => p.1 == k) = [(k, v)] := by
      rw [List.filter_append, hq, hu]
      simp
    exact foldl_dictInsert_single _ [] k v (by simp) happ

/-- C6 amended, witness: the spec example message binds name to
Game Night exactly once. -/
theorem parser_quoted_exactly_once_witness :
    (quotedPairs msgExample).filter (fun p => p.1 == "name") = [("name", "Game Night")]
    ∧ (unquotedPairs msgExample).filter (fun p => p.1 == "name") = []
    ∧ (parse_command_args msgExample).filter (fun p => p.1 == "name")
      = [("name", "Game Night")] :=
  ⟨rfl, rfl, parser_quoted_exactly_once msgExample "name" "Game Night" rfl rfl⟩

/-- C7: a leave request by a leader of a group with exactly one leader
row fails with LastLeader (no state is returned, membership unchanged);
the same request with exactly two leader rows succeeds and the removal
leaves exactly one leader row. -/
theorem group_leave_leader_invariant (ms : List Member) (uid : String)
    (hnd : membersWF ms) :
    ((leadersOf ms).length = 1 → isLeaderB ms uid = true →
      group_leave ms uid = .failure "LastLeader")
    ∧ ((leadersOf ms).length = 2 → isLeaderB ms uid = true →
      group_leave ms uid = .success (remove_group_member ms uid)
      ∧ (leadersOf (remove_group_member ms uid)).length = 1) := by
  constructor
  · intro h1 hl
    have hm := isLeaderB_isMemberB ms uid hl
    simp only [group_leave, hm, Bool.not_true, Bool.false_eq_true, if_false, hl, h1]
    simp
  · intro h2 hl
    have hm := isLeaderB_isMemberB ms uid hl
    have hrec := leaders_remove ms uid hnd hl
    rw [h2] at hrec
    constructor
    · simp only [group_leave, hm, Bool.not_true, Bool.false_eq_true, if_false, hl, h2]
      simp
    · omega

/-- C7, witness: sole leader u1 cannot leave; with a second leader u2 the
leave succeeds and one leader row remains. -/
theorem group_leave_leader_invariant_witness :
    group_leave [⟨"u1", true⟩, ⟨"u2", false⟩] "u1" = .failure "LastLeader"
    ∧ group_leave [⟨"u1", true⟩, ⟨"u2", true⟩] "u1"
      = .success [⟨"u2", true⟩]
    ∧ (leadersOf (remove_group_member [⟨"u1", true⟩, ⟨"u2", true⟩] "u1")).length = 1 := by
  have ha := (group_leave_leader_invariant [⟨"u1", true⟩, ⟨"u2", false⟩] "u1"
    (by decide)).1 (by decide) (by decide)
  have hb := (group_leave_leader_invariant [⟨"u1", true⟩, ⟨"u2", true⟩] "u1"
    (by decide)).2 (by decide) (by decide)
  exact ⟨ha, hb.1, hb.2⟩

/-- C9: a successful host change leaves the attendee rows untouched (the
returned list is the input list, whatever stale status the new host may
hold there) and alters no event field other than host_id. -/
theorem change_host_frame (ev : EventRec) (isL : Bool) (members : List Member)
    (req : String) (args : List (String × String)) (atts : List AttRec)
    (ev2 : EventRec) (atts2 : List AttRec)
    (h : event_change_host ev isL members req args atts = .success (ev2, atts2)) :
    atts2 = atts ∧ ev2.name = ev.name ∧ ev2.date_time = ev.date_time
    ∧ ev2.location_name = ev.location_name
    ∧ ev2.location_address = ev.location_address
    ∧ ev2.description = ev.description ∧ ev2.max_attendees = ev.max_attendees
    ∧ ev2.is_public = ev.is_public ∧ ev2.status = ev.status := by
  unfold event_change_host at h
  split at h
  · cases h
  · split at h
    · cases h
    · split at h
      · cases h
      · split at h
        · cases h
        · rw [OpResult.success.injEq, Prod.mk.injEq] at h
          obtain ⟨hev, hatts⟩ := h
          rw [← hev, ← hatts]
          exact ⟨rfl, rfl, rfl, rfl, rfl, rfl, rfl, rfl, rfl⟩

/-- C9, witness: a leader moves hosting to member 222 who holds a stale
WAITLIST row; the attendee list and every other event field are
unchanged. -/
theorem change_host_frame_witness :
    event_change_host evApproved true [⟨"111", true⟩, ⟨"222", false⟩] "u1"
      [("user", "<@222>")] [⟨"222", "WAITLIST"⟩]
      = .success ({ evApproved with host_id := "222" }, [⟨"222", "WAITLIST"⟩])
    ∧ ([(⟨"222", "WAITLIST"⟩ : AttRec)] = [(⟨"222", "WAITLIST"⟩ : AttRec)]
      ∧ ({ evApproved with host_id := "222" } : EventRec).status = evApproved.status) := by
  refine ⟨rfl, ?_⟩
  have h := change_host_frame evApproved true [⟨"111", true⟩, ⟨"222", false⟩] "u1"
    [("user", "<@222>")] [⟨"222", "WAITLIST"⟩]
    { evApproved with host_id := "222" } [⟨"222", "WAITLIST"⟩] rfl
  exact ⟨h.1, h.2.2.2.2.2.2.2.2⟩

/-- C10: Unconfirm validates nothing beyond its thread binding — it
returns successfully for every event status, every membership relation
and every requester, with the deletion a no-op when the requester holds no
row; the promotion fires whenever the post-removal waitlist is nonempty,
whatever the remover held, and can push the ATTENDING count above the
stored capacity (concrete instance: cap 2, two attending, a DECLINED
remover, promotion yields three ATTENDING). -/
theorem unconfirm_no_preconditions (ev : EventRec) (members : List Member)
    (atts : List AttRec) (uid : String) :
    (∃ va, event_unconfirm ev members atts uid = .success va)
    ∧ (atts.any (fun a => a.user_id == uid) = false →
      remove_event_attendee atts uid = atts)
    ∧ (∀ w rest, waitlistOf (remove_event_attendee atts uid) = w :: rest →
      ∃ l, event_unconfirm ev members atts uid = .success (l, some w.user_id))
    ∧ (∃ ev2 members2 atts2 uid2 l m2,
      event_unconfirm ev2 members2 atts2 uid2 = .success (l, some m2)
      ∧ ev2.max_attendees = some 2
      ∧ countAttending atts2 = 2
      ∧ countAttending l = 3) := by
  refine ⟨?_, ?_, ?_, ?_⟩
  · cases hwl : waitlistOf (remove_event_attendee atts uid) with
    | nil =>
      refine ⟨(remove_event_attendee atts uid, none), ?_⟩
      simp only [event_unconfirm, hwl]
    | cons w rest =>
      refine ⟨(add_event_attendee (remove_event_attendee atts uid)
        w.user_id "ATTENDING", some w.user_id), ?_⟩
      simp only [event_unconfirm, hwl]
  · intro hno
    unfold remove_event_attendee
    rw [List.filter_eq_self]
    intro a ha
    have hfalse : (a.user_id == uid) = false := by
      cases hcon : a.user_id == uid
      · rfl
      · exfalso
        have hall : atts.any (fun x => x.user_id == uid) = true :=
          List.any_eq_true.mpr ⟨a, ha, hcon⟩
        rw [hno] at hall
        cases hall
    simp [hfalse]
  · intro w rest hwl
    refine ⟨add_event_attendee (remove_event_attendee atts uid)
      w.user_id "ATTENDING", ?_⟩
    simp only [event_unconfirm, hwl]
  · refine ⟨evCapTwo, [],
      [⟨"u1", "ATTENDING"⟩, ⟨"u2", "ATTENDING"⟩, ⟨"u3", "WAITLIST"⟩, ⟨"u4", "DECLINED"⟩],
      "u4", [⟨"u1", "ATTENDING"⟩, ⟨"u2", "ATTENDING"⟩, ⟨"u3", "ATTENDING"⟩],
      "u3", rfl, rfl, rfl, rfl⟩

/-- C10, witness: a non-member unconfirms a pending event while holding no
row: the call succeeds and the deletion is a no-op. -/
theorem unconfirm_no_preconditions_witness :
    (∃ va, event_unconfirm { evApproved with status := "pending" } []
      [⟨"u9", "WAITLIST"⟩] "u5" = .success va)
    ∧ remove_event_attendee [⟨"u9", "WAITLIST"⟩] "u5" = [⟨"u9", "WAITLIST"⟩] := by
  have h := unconfirm_no_preconditions { evApproved with status := "pending" } []
    [⟨"u9", "WAITLIST"⟩] "u5"
  exact ⟨h.1, h.2.1 (by decide)⟩

/-- C8 amended: for a permitted requester, a date-only update merges the
new calendar date onto the existing date-time preserving the time
components exactly, a time-only update merges the new clock time
preserving the date components exactly; the past-instant check (the same
strict less-than used at creation, so an instant equal to the clock
passes) runs against the merged result, failing with InvalidDateTime when
the merged instant is strictly before the clock and applying the update
otherwise; a non-numeric max argument fails with InvalidNumber before any
update is applied. -/
theorem event_modify_merge_rules (ev : EventRec) (isH isL : Bool)
    (args : List (String × String)) (now : DT)
    (hperm : isH = true ∨ isL = true) :
    (∀ ds y m d, argGet args "date" = some ds → argGet args "time" = none →
      argGet args "max" = none → parseDateOnly ds = some (y, m, d) →
      ((mergeDate ev.date_time y m d).hour = ev.date_time.hour
        ∧ (mergeDate ev.date_time y m d).minute = ev.date_time.minute
        ∧ (mergeDate ev.date_time y m d).second = ev.date_time.second)
      ∧ (dtLt (mergeDate ev.date_time y m d) now = true →
        event_modify ev isH isL args now = .failure "InvalidDateTime")
      ∧ (dtLt (mergeDate ev.date_time y m d) now = false →
        event_modify ev isH isL args now = .success { ev with
          name := argGetD args "name" ev.name
          description := argGetD args "description" ev.description
          location_name := argGetD args "location" ev.location_name
          location_address := argGetD args "address" ev.location_address
          date_time := mergeDate ev.date_time y m d }))
    ∧ (∀ ts h mi, argGet args "time" = some ts → argGet args "date" = none →
      argGet args "max" = none → parseTimeOnly ts = some (h, mi) →
      ((mergeTime ev.date_time h mi).year = ev.date_time.year
        ∧ (mergeTime ev.date_time h mi).month = ev.date_time.month
        ∧ (mergeTime ev.date_time h mi).day = ev.date_time.day)
      ∧ (dtLt (mergeTime ev.date_time h mi) now = true →
        event_modify ev isH isL args now = .failure "InvalidDateTime")
      ∧ (dtLt (mergeTime ev.date_time h mi) now = false →
        event_modify ev isH isL args now = .success { ev with
          name := argGetD args "name" ev.name
          description := argGetD args "description" ev.description
          location_name := argGetD args "location" ev.location_name
          location_address := argGetD args "address" ev.location_address
          date_time := mergeTime ev.date_time h mi }))
    ∧ (∀ s, argGet args "max" = some s → pyIntParse s = none →
      event_modify ev isH isL args now = .failure "InvalidNumber") := by
  have hguard : (!isH && !isL) = false := by
    rcases hperm with h | h <;> simp [h]
  refine ⟨?_, ?_, ?_⟩
  · intro ds y m d hdate htime hmax hparse
    have hne := argGet_ne_nil args "date" ds hdate
    refine ⟨⟨rfl, rfl, rfl⟩, ?_, ?_⟩
    · intro hlt
      simp only [event_modify, hguard, Bool.false_eq_true, if_false, hne, hmax,
        hdate, htime, hparse, Option.isSome_some, Option.isSome_none, Bool.true_or,
        if_true, hlt]
    · intro hge
      simp only [event_modify, hguard, Bool.false_eq_true, if_false, hne, hmax,
        hdate, htime, hparse, Option.isSome_some, Option.isSome_none, Bool.true_or,
        if_true, hge, Bool.or_true, Bool.true_and]
  · intro ts h mi htime hdate hmax hparse
    have hne := argGet_ne_nil args "time" ts htime
    refine ⟨⟨rfl, rfl, rfl⟩, ?_, ?_⟩
    · intro hlt
      simp only [event_modify, hguard, Bool.false_eq_true, if_false, hne, hmax,
        hdate, htime, hparse, Option.isSome_some, Option.isSome_none, Bool.or_true,
        if_true, hlt]
    · intro hge
      simp only [event_modify, hguard, Bool.false_eq_true, if_false, hne, hmax,
        hdate, htime, hparse, Option.isSome_some, Option.isSome_none, Bool.or_true,
        if_true, hge, Bool.true_and]
  · intro s hs hbad
    have hne := argGet_ne_nil args "max" s hs
    simp only [event_modify, hguard, Bool.false_eq_true, if_false, hne, hs, hbad]

/-- C8 amended, witness: a date-only update to an event at 18:30 keeps
18:30 and moves the calendar date; a bad max argument is InvalidNumber. -/
theorem event_modify_merge_rules_witness :
    event_modify evHalfPast true false [("date", "2024-03-25")] clock0
      = .success { evHalfPast with date_time := ⟨2024, 3, 25, 18, 30, 0, 0⟩ }
    ∧ event_modify evHalfPast true false [("max", "abc")] clock0
      = .failure "InvalidNumber" := by
  have hfull := event_modify_merge_rules evHalfPast true false
    [("date", "2024-03-25")] clock0 (Or.inl rfl)
  have ha := (hfull.1 "2024-03-25" 2024 3 25 rfl rfl rfl rfl).2.2 rfl
  have hb := (event_modify_merge_rules evHalfPast true false
    [("max", "abc")] clock0 (Or.inl rfl)).2.2 "abc" rfl rfl
  exact ⟨ha, hb⟩

end Irlcord
